import Mathlib

/-!
Formal model of the googol.rs distributed search engine core.

This file gives a shallow embedding, in Lean 4, of the data model and the
operations of the googol services: the per-Barrel `IndexStore`
(src/index_store.rs), the Gateway URL frontier `Queue` (src/gateway/queue.rs),
the `DomainsFilter` (src/settings/gateway.rs), the response-time aggregate
(src/gateway/status.rs), the load balancer's `send_until`
(src/gateway/load_balancer.rs), and the relevant Gateway and Barrel RPC
handlers (src/gateway/mod.rs, src/barrel/mod.rs).  External effects (URL
parsing by the `url` crate, RPC transport outcomes, wall-clock durations,
filesystem writes) are passed in as explicit oracle arguments; everything
else follows the Rust source line by line.  Rust `HashSet`s become `Finset`s,
`HashMap`s become functions into `Option`, `VecDeque`s become `List`s, and
`f32` arithmetic is modelled by exact rational arithmetic.
-/

namespace Googol

/-- Status enum of the wire protocol, from src/lib.rs (`enum GoogolStatus`). -/
inductive GoogolStatus where
  | Success
  | Error
  | InvalidUrl
  | AlreadyIndexedUrl
  | UnavailableBarrels
deriving DecidableEq, Repr

/-- Model of a parsed `url::Url` value (external `url` crate).  The verified
code observes only its serialized form (`as_str` / `to_string`) and its host,
so a parsed URL is modelled as that pair of observations. -/
structure Url where
  raw : String
  host : Option String := none
deriving DecidableEq, Repr

/-- Model of `Page` from src/page/mod.rs.  Rust `PartialEq for Page` compares
only the URL and the date part of the indexed-at timestamp
(`self.url == other.url && self.timestamp.date_naive() == other.timestamp.date_naive()`);
the metadata fields (title, summary, icon, category) do not participate in
equality and are never read by the operations verified here, so a page is
modelled by exactly the pair that defines its identity. -/
structure Page where
  url : Url
  date : Nat := 0
deriving DecidableEq, Repr

/-- Embeds `str::to_lowercase` as used on the ASCII index words: lowercase
every character of the string. -/
def lowercase (s : String) : String :=
  ⟨s.data.map Char.toLower⟩

/-! ## Response-time aggregate (src/gateway/status.rs) -/

/-- Rust `ResponseTime` from src/gateway/status.rs: a running mean of observed RPC
latencies in milliseconds together with a sample count.  The `f32` field
`miliseconds` is modelled by an exact rational. -/
structure ResponseTime where
  miliseconds : ℚ
  count : Nat
deriving DecidableEq, Repr

/-- Rust `Default for ResponseTime`: zero mean, zero samples. -/
def ResponseTime.default : ResponseTime :=
  { miliseconds := 0, count := 0 }

/-- Rust `ResponseTime::new_sample`, with the elapsed duration (in milliseconds, as
measured from the `Instant` argument in Rust) passed as an explicit oracle:
`miliseconds = (miliseconds * count + duration) / (count + 1); count += 1`. -/
def ResponseTime.new_sample (rt : ResponseTime) (duration : ℚ) : ResponseTime :=
  { miliseconds := (rt.miliseconds * rt.count + duration) / (rt.count + 1),
    count := rt.count + 1 }

/-- Rust `ResponseTime::update`, verbatim from src/gateway/status.rs: the mean is
replaced by the count-weighted mean of the two aggregates, and `count` is not
written at all (rational division stands in for the `f32` division; every
call verified below has a nonzero denominator). -/
def ResponseTime.update (self other : ResponseTime) : ResponseTime :=
  { self with
    miliseconds :=
      (self.miliseconds * self.count + other.miliseconds * other.count) /
        ((self.count : ℚ) + other.count) }

/-! ## Domain filter (src/settings/gateway.rs) -/

/-- Rust `DomainsFilter`: whitelist and blacklist of hosts (a `url::Host` is
modelled by its textual form). -/
structure DomainsFilter where
  whitelist : Finset String := ∅
  blacklist : Finset String := ∅
deriving DecidableEq

/-- Rust `DomainsFilter::is_blacklisted`: true when the URL has a host and that
host is in the blacklist. -/
def DomainsFilter.is_blacklisted (f : DomainsFilter) (url : Url) : Bool :=
  match url.host with
  | some host => decide (host ∈ f.blacklist)
  | none => false

/-- Rust `DomainsFilter::is_whitelisted`: true when the URL has a host and that
host is in the whitelist. -/
def DomainsFilter.is_whitelisted (f : DomainsFilter) (url : Url) : Bool :=
  match url.host with
  | some host => decide (host ∈ f.whitelist)
  | none => false

/-! ## URL frontier (src/gateway/queue.rs) -/

/-- Rust `Queue` from src/gateway/queue.rs: the `VecDeque<Url>` of pending URLs, the
seen-set, and the (stored) domain filter. -/
structure Queue where
  queue : List Url := []
  seen : Finset Url := ∅
  domains_filter : DomainsFilter := {}
deriving DecidableEq

/-- Rust `Queue::into_vec`: the queue snapshot as a list of URL strings. -/
def Queue.into_vec (q : Queue) : List String :=
  q.queue.map (·.raw)

/-- Rust `Queue::enqueue`.  If the URL is in the seen-set, return
`AlreadyIndexedUrl` and the unchanged snapshot; otherwise push the URL at the
back, insert it into the seen-set, and return `Success` with the updated
snapshot.  The Rust method mutates `self` and returns the
`(GoogolStatus, Vec<String>)` pair; here the updated state is returned
alongside. -/
def Queue.enqueue (q : Queue) (url : Url) : (GoogolStatus × List String) × Queue :=
  if url ∈ q.seen then
    ((GoogolStatus.AlreadyIndexedUrl, q.into_vec), q)
  else
    let q' := { q with queue := q.queue ++ [url], seen := insert url q.seen }
    ((GoogolStatus.Success, q'.into_vec), q')

/-- Rust `Queue::dequeue`: non-blocking pop-front; the seen-set is untouched. -/
def Queue.dequeue (q : Queue) : Option Url × Queue :=
  match q.queue with
  | [] => (none, q)
  | url :: rest => (some url, { q with queue := rest })

/-- Rust `Queue::clear_seen`: clear the seen-set, then re-insert every URL still in
the queue. -/
def Queue.clear_seen (q : Queue) : Queue :=
  { q with seen := q.queue.toFinset }

/-! ## Index store (src/index_store.rs)

Rust `HashMap<K, HashSet<V>>` multimaps are modelled as functions
`K → Option (Finset V)`; an absent key is `none`. -/

/-- Rust `m.entry(k).or_insert_with(HashSet::new).insert(v)`: point-update of a
multimap, inserting `v` into the (possibly fresh) set at key `k`. -/
def entryInsert {α β : Type} [DecidableEq α] [DecidableEq β]
    (m : α → Option (Finset β)) (k : α) (v : β) : α → Option (Finset β) :=
  fun k' => if k' = k then some (insert v ((m k).getD ∅)) else m k'

/-- Rust `m.entry(k).or_insert_with(HashSet::new).extend(vs)`: insert every element
of `vs` into the (possibly fresh) set at key `k`. -/
def entryExtend {α β : Type} [DecidableEq α] [DecidableEq β]
    (m : α → Option (Finset β)) (k : α) (vs : Finset β) : α → Option (Finset β) :=
  fun k' => if k' = k then some ((m k).getD ∅ ∪ vs) else m k'

/-- Rust `HashMap::insert`: point-update of a map, replacing any previous value. -/
def mapInsert {α β : Type} [DecidableEq α]
    (m : α → Option β) (k : α) (v : β) : α → Option β :=
  fun k' => if k' = k then some v else m k'

/-- Rust `IndexStore` from src/index_store.rs.  `filepath` and `size_bytes` are the
runtime-only (`serde(skip)`) fields. -/
structure IndexStore where
  indexed_pages : Finset Page := ∅
  url2pages : Url → Option Page := fun _ => none
  index : String → Option (Finset Url) := fun _ => none
  invert_index : Url → Option (Finset String) := fun _ => none
  backlinks : Url → Option (Finset Url) := fun _ => none
  outlinks : Url → Option (Finset Url) := fun _ => none
  filepath : String := ""
  size_bytes : Nat := 0

/-- Rust `IndexStore::store`: insert the page into `indexed_pages` and
`url2pages`; for each word, lowercased, insert the page URL into
`index[word]` and the word into `invert_index[page.url]`; extend
`outlinks[page.url]` with the outlinks; and for each outlink insert
`page.url` into `backlinks[outlink]`. -/
def IndexStore.store (s : IndexStore) (page : Page) (words : List String)
    (outlinks : List Url) : IndexStore :=
  let s := { s with
    indexed_pages := insert page s.indexed_pages,
    url2pages := mapInsert s.url2pages page.url page }
  let s := words.foldl (fun s word =>
    let word := lowercase word
    { s with
      index := entryInsert s.index word page.url,
      invert_index := entryInsert s.invert_index page.url word }) s
  let s := { s with outlinks := entryExtend s.outlinks page.url outlinks.toFinset }
  outlinks.foldl (fun s outlink =>
    { s with backlinks := entryInsert s.backlinks outlink page.url }) s

/-- Intersection of a non-empty list of URL sets, as computed in
`IndexStore::search`: `sets.iter().skip(1).fold(sets[0].clone(), |acc, set| acc & set)`.
The empty case is unreachable there (the caller has checked that the word
list is non-empty and that every lookup succeeded). -/
def interAll (sets : List (Finset Url)) : Finset Url :=
  match sets with
  | [] => ∅
  | s0 :: rest => rest.foldl (· ∩ ·) s0

/-- The tail of `IndexStore::search`: convert the URLs of the intersection to
pages through `url2pages`, dropping URLs without a page
(`iter().filter_map(|url| url2pages.get(url)).cloned().collect()`). -/
def IndexStore.pagesOf (s : IndexStore) (urls : Finset Url) : Finset Page :=
  urls.biUnion (fun url => (s.url2pages url).toFinset)

/-- Rust `IndexStore::search`: empty input gives the empty set; collect the posting
list of each lowercased word, dropping missing ones; if any word was missing
(the collected list is shorter than the input) give the empty set; otherwise
intersect all posting lists and map the URLs through `url2pages`. -/
def IndexStore.search (s : IndexStore) (words : List String) : Finset Page :=
  if words.isEmpty then ∅
  else
    let sets_of_urls := (words.map lowercase).filterMap s.index
    if sets_of_urls.length < words.length then ∅
    else s.pagesOf (interAll sets_of_urls)

/-- The backlink count used by `IndexStore::search_by_relevance`:
`backlinks.get(&page.url).map_or(0, |s| s.len())` — the cardinality of the
stored backlink set, `0` when the URL has no entry. -/
def IndexStore.backlinkCount (s : IndexStore) (url : Url) : Nat :=
  ((s.backlinks url).map Finset.card).getD 0

/-- Rust `IndexStore::search_by_relevance`: run `search`, pair every page with its
backlink count, sort descending by the count (`sort_by(|(_, a), (_, b)| b.cmp(a))`,
a stable sort), and drop the counts.  Rust iterates the `HashSet` returned by
`search` in an unspecified order; that iteration order is passed here as the
explicit enumeration `pages` (theorems hypothesize that `pages` enumerates
`s.search words` without duplicates). -/
def IndexStore.search_by_relevance (s : IndexStore) (pages : List Page) : List Page :=
  let pages_with_backlinks := pages.map (fun page => (page, s.backlinkCount page.url))
  let sorted := pages_with_backlinks.mergeSort (fun a b => decide (b.2 ≤ a.2))
  sorted.map Prod.fst

/-- Rust `IndexStore::consult_backlinks`: the stored backlink set, empty if absent. -/
def IndexStore.consult_backlinks (s : IndexStore) (url : Url) : Finset Url :=
  (s.backlinks url).getD ∅

/-- Rust `IndexStore::consult_outlinks`: the stored outlink set, empty if absent. -/
def IndexStore.consult_outlinks (s : IndexStore) (url : Url) : Finset Url :=
  (s.outlinks url).getD ∅

/-- Rust `IndexStore::save`, with the filesystem outcome passed as an oracle:
`some size` is a successful write of `size` bytes (recorded in `size_bytes`),
`none` is a write error (logged in Rust; `size_bytes` unchanged, `Err`
returned).  The result is `Except`-like: `none` for `Err`, `some` for `Ok`. -/
def IndexStore.save (s : IndexStore) (io : Option Nat) : Option (Nat × IndexStore) :=
  match io with
  | some size => some (size, { s with size_bytes := size })
  | none => none

/-! ## Load balancer (src/gateway/load_balancer.rs) -/

/-- Gateway-side `Barrel` record: address, online flag, last known index
size. -/
structure LoadBalancer.Barrel where
  address : String
  online : Bool := false
  index_size_bytes : Nat := 0
deriving DecidableEq, Repr

/-- Outcome of one attempt against one Barrel, as decided by the network and
the remote service — an oracle for the embedding.  `connectFail` is a failure
of `barrel.connect().await`; `callFail` is a successful connect whose
RPC call `f(client).await` returns `Err`; `callOk` is a successful call with
its response and the elapsed duration in milliseconds. -/
inductive CallOutcome (T : Type) where
  | connectFail
  | callFail
  | callOk (response : T) (elapsed_ms : ℚ)

/-- Rust `LBResult` from src/gateway/load_balancer.rs. -/
inductive LBResult (T : Type) where
  | Ok (response : T) (offline : Nat) (rt : ResponseTime)
  | Offline (n : Nat)
deriving Repr

/-- Loop body of `LoadBalancer::send_until`, iterating the Barrels in order.
`oc i` is the outcome of the attempt against the i-th remaining Barrel;
`total` is `self.barrels.len()` (used for the final `Offline` count);
`offline` and `avg` are the loop accumulators.  Per the source: a connect
failure marks the Barrel offline and increments `offline`; a call failure
leaves the Barrel record untouched and the loop continues; the first
successful call marks its Barrel online, records one latency sample, and
returns.  The updated Barrel list is returned alongside the result. -/
def sendUntilGo {T : Type} (total : Nat) (barrels : List LoadBalancer.Barrel)
    (oc : Nat → CallOutcome T) (offline : Nat) (avg : ResponseTime) :
    LBResult T × List LoadBalancer.Barrel :=
  match barrels with
  | [] => (LBResult.Offline total, [])
  | b :: rest =>
    match oc 0 with
    | CallOutcome.connectFail =>
      let b' := { b with online := false }
      let (r, rest') := sendUntilGo total rest (fun i => oc (i + 1)) (offline + 1) avg
      (r, b' :: rest')
    | CallOutcome.callFail =>
      let (r, rest') := sendUntilGo total rest (fun i => oc (i + 1)) offline avg
      (r, b :: rest')
    | CallOutcome.callOk response ms =>
      let b' := { b with online := true }
      (LBResult.Ok response offline (avg.new_sample ms), b' :: rest)

/-- Rust `LoadBalancer::send_until`: iterate all Barrels from the start with fresh
accumulators (`offline = 0`, `avg = ResponseTime::default()`); when every
attempt fails, the result is `Offline(self.barrels.len())`. -/
def LoadBalancer.send_until {T : Type} (barrels : List LoadBalancer.Barrel)
    (oc : Nat → CallOutcome T) : LBResult T × List LoadBalancer.Barrel :=
  sendUntilGo barrels.length barrels oc 0 ResponseTime.default

/-! ## Gateway handlers (src/gateway/mod.rs) -/

/-- The two `tokio::sync::Notify` signals a Gateway handler may emit before
returning (`Notification { status, queue }`): `true` means the handler called
`notify_waiters` on that notification. -/
structure Signals where
  queue_notified : Bool := false
  status_notified : Bool := false
deriving DecidableEq, Repr

/-- Rust `GatewayService::enqueue_url`: parse the request URL (`parse` is the
`url::Url::parse` oracle) — on failure answer `InvalidUrl` with an empty
snapshot; on success run `Queue::enqueue`.  Then, exactly as in the source,
notify the status watchers when the status is `Success`; no code path
signals the queue notification. -/
def Gateway.enqueue_url (parse : String → Option Url) (request_url : String)
    (q : Queue) : (GoogolStatus × List String) × Queue × Signals :=
  let ((status, queue), q') :=
    match parse request_url with
    | none => ((GoogolStatus.InvalidUrl, ([] : List String)), q)
    | some url => q.enqueue url
  ((status, queue), q',
    { queue_notified := false,
      status_notified := decide (status = GoogolStatus.Success) })

/-- The outlink-admission loop of `GatewayService::index`:
`for url in index.outlinks.iter().map(|url| Url::parse(url).unwrap()) { queue.enqueue(url); }`.
`none` models the panic of `.unwrap()` on the first outlink string that does
not parse; otherwise every outlink is enqueued in order. -/
def Gateway.index_enqueue_outlinks (parse : String → Option Url)
    (outlinks : List String) (q : Queue) : Option Queue :=
  match outlinks with
  | [] => some q
  | o :: rest =>
    match parse o with
    | none => none
    | some url => Gateway.index_enqueue_outlinks parse rest (q.enqueue url).2

/-! ## Barrel handlers (src/barrel/mod.rs) -/

/-- Payload of an `IndexRequest` (proto `index` message): the page (absent
when the optional proto field is missing or, for the page, when its URL does
not convert), the word list, and the outlink strings. -/
structure IndexPayload where
  page : Option Page
  words : List String
  outlinks : List String

/-- Rust `IndexRequest` wire message: an optional payload. -/
structure IndexRequest where
  index : Option IndexPayload

/-- The outlink conversion in `BarrelService::index`: malformed outlink
strings are dropped with a log entry
(`filter_map(|url| match Url::parse(url) { Ok(url) => Some(url), Err(e) => { error!(...); None } })`). -/
def Barrel.parse_outlinks (parse : String → Option Url) (outlinks : List String) :
    List Url :=
  outlinks.filterMap parse

/-- Rust `BarrelService::index`: unwrap the payload and the page (a missing field
panics), convert the outlinks dropping malformed ones, `store` into the
index, then `index.save().unwrap()` — a save failure panics the handler.
`none` models a panic (no response); on success the response carries
`size_bytes: 0` and the handler's updated store is returned.  `saveOutcome`
is the filesystem oracle passed to `IndexStore.save`. -/
def Barrel.index (parse : String → Option Url) (saveOutcome : Option Nat)
    (store0 : IndexStore) (request : IndexRequest) : Option (IndexStore × Nat) :=
  match request.index with
  | none => none
  | some payload =>
    match payload.page with
    | none => none
    | some page =>
      let outlinks := Barrel.parse_outlinks parse payload.outlinks
      let s1 := store0.store page payload.words outlinks
      match s1.save saveOutcome with
      | none => none
      | some (_, s2) => some (s2, 0)

/-! ## Derived notions used to state the claims -/

/-- Whether the outcome of one Barrel attempt is a successful call. -/
def CallOutcome.isOk {T : Type} : CallOutcome T → Bool
  | CallOutcome.callOk _ _ => true
  | _ => false

/-- Whether the outcome of one Barrel attempt is a connect failure. -/
def CallOutcome.isConnectFail {T : Type} : CallOutcome T → Bool
  | CallOutcome.connectFail => true
  | _ => false

/-- Number of connect failures among the attempts strictly before index `i`. -/
def connectFailsBefore {T : Type} (oc : Nat → CallOutcome T) (i : Nat) : Nat :=
  (List.range i).countP (fun j => (oc j).isConnectFail)

/-- The online-flag adjustment `send_until` applies to the Barrel at
position `j` when the first successful attempt is at position `i`: Barrels
before `i` that failed to connect are marked offline, the successful Barrel
is marked online, and every other record (call failures included) is left
untouched. -/
def markBarrel {T : Type} (oc : Nat → CallOutcome T) (i j : Nat)
    (b : LoadBalancer.Barrel) : LoadBalancer.Barrel :=
  if j < i ∧ (oc j).isConnectFail then { b with online := false }
  else if j = i then { b with online := true }
  else b

/-- Operations a client can drive the frontier through between two enqueues
of the same URL: further enqueues and dequeues (`clear_seen` excluded, as in
the claim about idempotence). -/
inductive QOp where
  | enq (url : Url)
  | deq
deriving DecidableEq

/-- Runs a sequence of frontier operations left to right. -/
def Queue.runOps (q : Queue) (ops : List QOp) : Queue :=
  ops.foldl (fun q op =>
    match op with
    | QOp.enq url => (q.enqueue url).2
    | QOp.deq => q.dequeue.2) q

/-- One recorded `IndexStore::store` call: the page, its words, and its
outlinks. -/
structure StoreOp where
  page : Page
  words : List String
  outlinks : List Url

/-- The store reached from the empty (default) store by a sequence of
`store` calls. -/
def IndexStore.runStores (ops : List StoreOp) : IndexStore :=
  ops.foldl (fun s op => s.store op.page op.words op.outlinks) {}

/-- Membership of a URL in the posting list of a word (`forwardIndex`). -/
def IndexStore.inForward (s : IndexStore) (w : String) (u : Url) : Prop :=
  u ∈ (s.index w).getD ∅

/-- Membership of a word in the word set of a URL (`invertedIndex`). -/
def IndexStore.inInverted (s : IndexStore) (u : Url) (w : String) : Prop :=
  w ∈ (s.invert_index u).getD ∅

/-- Membership of an outlink in the outlink set of a URL. -/
def IndexStore.inOutlinks (s : IndexStore) (u o : Url) : Prop :=
  o ∈ (s.outlinks u).getD ∅

/-- Membership of a URL in the backlink set of a URL. -/
def IndexStore.inBacklinks (s : IndexStore) (o u : Url) : Prop :=
  u ∈ (s.backlinks o).getD ∅

/-- First index-store invariant: the forward and inverted word indices are
mutual inverses. -/
def IndexStore.WordGraphInv (s : IndexStore) : Prop :=
  ∀ (w : String) (u : Url), s.inForward w u ↔ s.inInverted u w

/-- Second index-store invariant: the outlink and backlink adjacency maps
are mutual inverses. -/
def IndexStore.LinkGraphInv (s : IndexStore) : Prop :=
  ∀ u o : Url, s.inOutlinks u o ↔ s.inBacklinks o u

/-! ## Concrete fixtures used by examples and witnesses -/

/-- A concrete model of the `url::Url::parse` oracle: it parses exactly the
URLs used in the concrete scenarios below and rejects everything else. -/
def exampleParse : String → Option Url := fun s =>
  if s = "https://a.example/" then some ⟨"https://a.example/", some "a.example"⟩
  else if s = "https://x/" then some ⟨"https://x/", some "x"⟩
  else if s = "https://y/" then some ⟨"https://y/", some "y"⟩
  else none

/-- A concrete URL with host `a.example`. -/
def aUrl : Url := ⟨"https://a.example/", some "a.example"⟩

/-- A concrete page for index scenarios. -/
def samplePage : Page := ⟨⟨"https://x/", some "x"⟩, 0⟩

/-- A concrete well-formed `IndexRequest` (payload and page present, no
outlinks). -/
def sampleIndexRequest : IndexRequest := ⟨some ⟨some samplePage, ["rust"], []⟩⟩

/-- A Barrel record that is currently online (say, from an earlier
successful broadcast). -/
def lbB0 : LoadBalancer.Barrel := { address := "127.0.0.1:50052", online := true }

/-- A second, initially offline Barrel record. -/
def lbB1 : LoadBalancer.Barrel := { address := "127.0.0.1:50053" }

/-- Attempt outcomes for a two-Barrel scenario: the first Barrel accepts the
connection but fails the call, the second answers `7` in 5 ms. -/
def c3oc : Nat → CallOutcome Nat := fun i =>
  if i = 0 then CallOutcome.callFail else CallOutcome.callOk 7 5

/-- A first concrete URL for the search scenarios. -/
def cexU1 : Url := ⟨"https://x/", some "x"⟩

/-- A second concrete URL for the search scenarios. -/
def cexU2 : Url := ⟨"https://y/", some "y"⟩

/-- A concrete page whose URL is `cexU1`. -/
def cexPage : Page := ⟨cexU1, 0⟩

/-- A concrete page whose URL is `cexU2`. -/
def relPageY : Page := ⟨cexU2, 0⟩

/-- A store reached by two `store` calls: page `cexPage` with words
`rust, fast` and no outlinks, then page `relPageY` with words `rust, web`
and one outlink back to `cexU1` — so `cexU1` has one backlink and `cexU2`
none. -/
def relStore : IndexStore := IndexStore.runStores
  [⟨cexPage, ["rust", "fast"], []⟩, ⟨relPageY, ["rust", "web"], [cexU1]⟩]

/-- An index store in which the words `a` and `b` both have non-empty posting
lists but `urlToPage` maps two distinct URLs to the same page.  Such a store
is constructible through `IndexStore::load` (the JSON fields are arbitrary);
it is not reachable through `store` alone. -/
def cexStore : IndexStore := {
  index := fun w =>
    if w = "a" then some {cexU1}
    else if w = "b" then some {cexU2}
    else none,
  url2pages := fun u =>
    if u = cexU1 ∨ u = cexU2 then some cexPage else none }

/-! ## Queue and notification claims -/

/-- C1: the Gateway `enqueue_url` handler never signals the queue
notification — on a successfully enqueued URL it signals only the status
notification, so no waiter blocked in `dequeue_url` (which waits on the
queue notification) is woken.  First conjunct: for every parse oracle,
request and queue state, `queue_notified` is `false`.  Remaining conjuncts:
at a concrete fresh valid URL the enqueue succeeds, the status notification
is signalled, and the queue notification is not. -/
theorem enqueue_url_signals_only_status :
    (∀ (parse : String → Option Url) (u : String) (q : Queue),
      (Gateway.enqueue_url parse u q).2.2.queue_notified = false) ∧
    (Gateway.enqueue_url exampleParse "https://a.example/" {}).1.1 =
        GoogolStatus.Success ∧
    (Gateway.enqueue_url exampleParse "https://a.example/" {}).2.2.status_notified =
        true ∧
    (Gateway.enqueue_url exampleParse "https://a.example/" {}).2.2.queue_notified =
        false := by
  refine ⟨fun parse u q => ?_, by decide, by decide, by decide⟩
  unfold Gateway.enqueue_url
  cases parse u with
  | none => rfl
  | some url =>
    unfold Queue.enqueue
    by_cases h : url ∈ q.seen <;> simp [h]

/-- C8 counterexample: `Queue::enqueue` admits a URL whose host is
blacklisted (and, with a non-empty whitelist, a URL whose host is not
whitelisted): the stored domain filter is never consulted.  The URL below is
blacklisted yet enqueued with `Success`, appended to the queue and inserted
into the seen-set; symmetrically a non-whitelisted URL is admitted past a
non-empty whitelist. -/
theorem enqueue_ignores_domains_filter_counterexample :
    (Queue.mk [] ∅ ⟨∅, {"a.example"}⟩).domains_filter.is_blacklisted aUrl = true ∧
    ((Queue.mk [] ∅ ⟨∅, {"a.example"}⟩).enqueue aUrl).1.1 = GoogolStatus.Success ∧
    ((Queue.mk [] ∅ ⟨∅, {"a.example"}⟩).enqueue aUrl).2.queue = [aUrl] ∧
    aUrl ∈ ((Queue.mk [] ∅ ⟨∅, {"a.example"}⟩).enqueue aUrl).2.seen ∧
    (Queue.mk [] ∅ ⟨{"other.host"}, ∅⟩).domains_filter.is_whitelisted aUrl = false ∧
    ((Queue.mk [] ∅ ⟨{"other.host"}, ∅⟩).enqueue aUrl).1.1 = GoogolStatus.Success := by
  decide

/-- C8 (amended): the domain filter stored in the Queue has no effect on
`enqueue` — the outcome and the resulting queue and seen-set are the same
for every filter, and a URL is admitted exactly when it is not already in
the seen-set. -/
theorem enqueue_applies_no_domain_filter (q : Queue) (url : Url) (f : DomainsFilter) :
    (({ q with domains_filter := f }).enqueue url).1 = (q.enqueue url).1 ∧
    (({ q with domains_filter := f }).enqueue url).2.queue = (q.enqueue url).2.queue ∧
    (({ q with domains_filter := f }).enqueue url).2.seen = (q.enqueue url).2.seen ∧
    (url ∉ q.seen →
      (q.enqueue url).1.1 = GoogolStatus.Success ∧
      (q.enqueue url).2.queue = q.queue ++ [url]) ∧
    (url ∈ q.seen →
      (q.enqueue url).1.1 = GoogolStatus.AlreadyIndexedUrl ∧
      (q.enqueue url).2 = q) := by
  unfold Queue.enqueue
  by_cases h : url ∈ q.seen <;>
    simp [h, Queue.into_vec]

/-- C8 witness: the amended theorem applied at a concrete queue, URL and
filter, with the not-yet-seen hypothesis discharged concretely. -/
theorem enqueue_applies_no_domain_filter_witness :
    aUrl ∉ (Queue.mk [] ∅ {}).seen ∧
    ((Queue.mk [] ∅ {}).enqueue aUrl).1.1 = GoogolStatus.Success ∧
    ((Queue.mk [] ∅ {}).enqueue aUrl).2.queue = [] ++ [aUrl] :=
  ⟨by decide,
   ((enqueue_applies_no_domain_filter (Queue.mk [] ∅ {}) aUrl
      ⟨∅, {"a.example"}⟩).2.2.2.1 (by decide)).1,
   ((enqueue_applies_no_domain_filter (Queue.mk [] ∅ {}) aUrl
      ⟨∅, {"a.example"}⟩).2.2.2.1 (by decide)).2⟩

/-- Unfolding of `Queue.enqueue` on a URL already in the seen-set. -/
lemma Queue.enqueue_of_seen {q : Queue} {url : Url} (h : url ∈ q.seen) :
    q.enqueue url = ((GoogolStatus.AlreadyIndexedUrl, q.into_vec), q) := by
  unfold Queue.enqueue
  simp [h]

/-- Unfolding of `Queue.enqueue` on a URL not yet seen. -/
lemma Queue.enqueue_of_not_seen {q : Queue} {url : Url} (h : url ∉ q.seen) :
    q.enqueue url =
      ((GoogolStatus.Success,
          ({ q with queue := q.queue ++ [url], seen := insert url q.seen } : Queue).into_vec),
        { q with queue := q.queue ++ [url], seen := insert url q.seen }) := by
  unfold Queue.enqueue
  simp [h]

/-- Dequeue never touches the seen-set. -/
lemma Queue.seen_dequeue (q : Queue) : q.dequeue.2.seen = q.seen := by
  unfold Queue.dequeue
  cases q.queue <;> rfl

/-- Seen-set membership is monotone along any sequence of enqueues and
dequeues. -/
lemma Queue.seen_mono_runOps (ops : List QOp) :
    ∀ (q : Queue) (url : Url), url ∈ q.seen → url ∈ (q.runOps ops).seen := by
  induction ops with
  | nil => intro q url h; exact h
  | cons op rest ih =>
    intro q url h
    cases op with
    | enq v =>
      refine ih _ _ ?_
      unfold Queue.enqueue
      by_cases hv : v ∈ q.seen <;> simp [hv, h]
    | deq =>
      refine ih _ _ ?_
      rw [Queue.seen_dequeue]
      exact h

/-- C9: enqueue is idempotent per URL across the URL's lifetime.  For a URL
not yet seen, the first enqueue returns `Success` and appends exactly one
entry; after any interleaving of further enqueues and dequeues (and no
`clear_seen`), enqueueing the same URL returns `AlreadyIndexedUrl` and
leaves the state unchanged — dequeuing does not remove it from the
seen-set. -/
theorem enqueue_idempotent_per_url (q : Queue) (url : Url) (h : url ∉ q.seen)
    (ops : List QOp) :
    (q.enqueue url).1.1 = GoogolStatus.Success ∧
    (q.enqueue url).2.queue = q.queue ++ [url] ∧
    (((q.enqueue url).2.runOps ops).enqueue url).1.1 =
        GoogolStatus.AlreadyIndexedUrl ∧
    (((q.enqueue url).2.runOps ops).enqueue url).2 = (q.enqueue url).2.runOps ops := by
  have h1 : url ∈ (q.enqueue url).2.seen := by
    rw [Queue.enqueue_of_not_seen h]
    exact Finset.mem_insert_self url q.seen
  have h2 : url ∈ ((q.enqueue url).2.runOps ops).seen :=
    Queue.seen_mono_runOps ops _ _ h1
  refine ⟨?_, ?_, ?_, ?_⟩
  · rw [Queue.enqueue_of_not_seen h]
  · rw [Queue.enqueue_of_not_seen h]
  · rw [Queue.enqueue_of_seen h2]
  · rw [Queue.enqueue_of_seen h2]

/-- C9 witness: a fresh queue, one successful enqueue, a dequeue and a
duplicate enqueue in between, and the final duplicate still rejected with
the state unchanged. -/
theorem enqueue_idempotent_per_url_witness :
    aUrl ∉ (Queue.mk [] ∅ {}).seen ∧
    (((Queue.mk [] ∅ {}).enqueue aUrl).1.1 = GoogolStatus.Success ∧
     ((Queue.mk [] ∅ {}).enqueue aUrl).2.queue = [] ++ [aUrl] ∧
     ((((Queue.mk [] ∅ {}).enqueue aUrl).2.runOps [QOp.deq, QOp.enq aUrl]).enqueue
         aUrl).1.1 = GoogolStatus.AlreadyIndexedUrl ∧
     ((((Queue.mk [] ∅ {}).enqueue aUrl).2.runOps [QOp.deq, QOp.enq aUrl]).enqueue
         aUrl).2 = ((Queue.mk [] ∅ {}).enqueue aUrl).2.runOps [QOp.deq, QOp.enq aUrl]) :=
  ⟨by decide, enqueue_idempotent_per_url (Queue.mk [] ∅ {}) aUrl (by decide)
      [QOp.deq, QOp.enq aUrl]⟩

/-! ## Response-time aggregate claims -/

/-- C7: `ResponseTime::update` never accumulates the sample count (first
conjunct: the count after an update is the old count, straight from the
source, which only assigns `miliseconds`).  Consequently a global aggregate
fed k single-sample aggregates does not converge to the average: starting
from the default aggregate and merging samples of 100 ms and 200 ms, the
mean ends at 200 (the last sample, because the accumulated count stuck at 0
erases the history) and the count at 0, not the claimed mean 150 and
count 2. -/
theorem response_time_update_forgets_count :
    (∀ a b : ResponseTime, (a.update b).count = a.count) ∧
    ((ResponseTime.default.update ⟨100, 1⟩).update ⟨200, 1⟩).miliseconds = 200 ∧
    ((ResponseTime.default.update ⟨100, 1⟩).update ⟨200, 1⟩).count = 0 ∧
    ¬(((ResponseTime.default.update ⟨100, 1⟩).update ⟨200, 1⟩).miliseconds = 150 ∧
      ((ResponseTime.default.update ⟨100, 1⟩).update ⟨200, 1⟩).count = 2) := by
  have hmean :
      ((ResponseTime.default.update ⟨100, 1⟩).update ⟨200, 1⟩).miliseconds = 200 := by
    norm_num [ResponseTime.update, ResponseTime.default]
  refine ⟨fun a b => rfl, hmean, rfl, ?_⟩
  intro hc
  rw [hmean] at hc
  norm_num at hc

/-! ## Barrel index handler claims -/

/-- C4: the Barrel `index` handler calls `index.save().unwrap()`, so a save
failure after a successful in-memory store panics the handler instead of
being merely logged: no response is returned (first two conjuncts, for every
request and for the concrete well-formed one).  Even when the save succeeds,
the response carries `size_bytes = 0` rather than the last successful size,
while the in-memory store does hold the freshly stored data with
`size_bytes` updated (last conjunct). -/
theorem barrel_index_panics_on_save_failure :
    (∀ (parse : String → Option Url) (store0 : IndexStore) (req : IndexRequest),
      Barrel.index parse none store0 req = none) ∧
    Barrel.index exampleParse none {} sampleIndexRequest = none ∧
    (∀ (store0 : IndexStore) (size : Nat),
      Barrel.index exampleParse (some size) store0 sampleIndexRequest =
        some ({ store0.store samplePage ["rust"] [] with size_bytes := size }, 0)) := by
  refine ⟨fun parse store0 req => ?_, ?_, fun store0 size => rfl⟩
  · obtain ⟨index⟩ := req
    cases index with
    | none => rfl
    | some payload =>
      obtain ⟨pg, ws, os⟩ := payload
      cases pg with
      | none => rfl
      | some page => rfl
  · rfl

/-- The outlink-admission loop of the Gateway index handler dies (returns
`none`, the panic of `Url::parse(..).unwrap()`) as soon as the outlink list
contains any string the parse oracle rejects. -/
lemma index_enqueue_outlinks_none_of_mem (parse : String → Option Url)
    (outlinks : List String) :
    ∀ (q : Queue) (o : String), o ∈ outlinks → parse o = none →
      Gateway.index_enqueue_outlinks parse outlinks q = none := by
  induction outlinks with
  | nil => intro q o ho _; cases ho
  | cons x rest ih =>
    intro q o ho hbad
    unfold Gateway.index_enqueue_outlinks
    cases hx : parse x with
    | none => rfl
    | some url =>
      rcases List.mem_cons.mp ho with rfl | hmem
      · rw [hx] at hbad; cases hbad
      · exact ih _ o hmem hbad

/-- When every outlink parses, the Gateway admission loop completes. -/
lemma index_enqueue_outlinks_isSome (parse : String → Option Url)
    (outlinks : List String) :
    ∀ q : Queue, (∀ s ∈ outlinks, (parse s).isSome) →
      (Gateway.index_enqueue_outlinks parse outlinks q).isSome := by
  induction outlinks with
  | nil => intro q _; rfl
  | cons x rest ih =>
    intro q hall
    unfold Gateway.index_enqueue_outlinks
    cases hx : parse x with
    | none =>
      have := hall x (List.mem_cons_self x rest)
      rw [hx] at this
      cases this
    | some url => exact ih _ (fun s hs => hall s (List.mem_cons_of_mem x hs))

/-- C10: an `IndexRequest` whose outlinks contain a string that does not
parse makes the Gateway index handler panic at `Url::parse(url).unwrap()`
while admitting outlinks into the queue — it returns no response (first
conjunct); the handler completes for every request whose outlinks all parse
(second conjunct); and on the same outlink list the Barrel-side conversion
merely drops the malformed string and keeps the rest (third conjunct). -/
theorem gateway_index_panics_on_malformed_outlink
    (parse : String → Option Url) (outlinks : List String) (o : String) (q : Queue)
    (ho : o ∈ outlinks) (hbad : parse o = none) :
    Gateway.index_enqueue_outlinks parse outlinks q = none ∧
    (∀ (outs : List String) (q' : Queue), (∀ s ∈ outs, (parse s).isSome) →
      (Gateway.index_enqueue_outlinks parse outs q').isSome) ∧
    (∀ pre post : List String,
      Barrel.parse_outlinks parse (pre ++ o :: post) =
        Barrel.parse_outlinks parse pre ++ Barrel.parse_outlinks parse post) := by
  refine ⟨index_enqueue_outlinks_none_of_mem parse outlinks q o ho hbad,
    fun outs q' h => index_enqueue_outlinks_isSome parse outs q' h,
    fun pre post => ?_⟩
  unfold Barrel.parse_outlinks
  rw [List.filterMap_append]
  simp [List.filterMap_cons, hbad]

/-! ## Structural lemmas about `store` -/

/-- A left fold whose step leaves a projection unchanged leaves it unchanged
overall. -/
lemma foldl_preserves {α β : Type} (step : IndexStore → α → IndexStore)
    (f : IndexStore → β) (hstep : ∀ (s : IndexStore) (x : α), f (step s x) = f s) :
    ∀ (l : List α) (s : IndexStore), f (l.foldl step s) = f s := by
  intro l
  induction l with
  | nil => intro s; rfl
  | cons x l ih =>
    intro s
    rw [List.foldl_cons, ih, hstep]

/-- The `url2pages` map after a `store` call is the point update of the old
map at the page URL — the word loop and the link loops never touch it. -/
lemma store_url2pages (s : IndexStore) (page : Page) (wsl : List String)
    (os : List Url) :
    (s.store page wsl os).url2pages = mapInsert s.url2pages page.url page := by
  simp only [IndexStore.store]
  have h1 := foldl_preserves
    (fun s outlink => { s with backlinks := entryInsert s.backlinks outlink page.url })
    (fun t : IndexStore => t.url2pages) (fun s x => rfl) os
  have h2 := foldl_preserves
    (fun s word =>
      { s with index := entryInsert s.index (lowercase word) page.url,
               invert_index := entryInsert s.invert_index page.url (lowercase word) })
    (fun t : IndexStore => t.url2pages) (fun s x => rfl) wsl
  rw [h1]
  exact h2 _

/-- Rust `store` preserves the key-consistency of `urlToPage` (every stored page
sits under its own URL). -/
lemma store_preserves_url2pages_key {s : IndexStore} (page : Page)
    (wsl : List String) (os : List Url)
    (h : ∀ (u : Url) (p : Page), s.url2pages u = some p → p.url = u) :
    ∀ (u : Url) (p : Page), (s.store page wsl os).url2pages u = some p → p.url = u := by
  intro u p hp
  rw [store_url2pages] at hp
  unfold mapInsert at hp
  by_cases hu : u = page.url
  · rw [if_pos hu] at hp
    cases hp
    exact hu.symm
  · rw [if_neg hu] at hp
    exact h u p hp

/-- Every store reachable by `store` calls from the empty store has a
key-consistent `urlToPage`. -/
lemma runStores_url2pages_key (ops : List StoreOp) :
    ∀ (u : Url) (p : Page), (IndexStore.runStores ops).url2pages u = some p →
      p.url = u := by
  suffices h : ∀ (ops : List StoreOp) (s : IndexStore),
      (∀ (u : Url) (p : Page), s.url2pages u = some p → p.url = u) →
      ∀ (u : Url) (p : Page),
        (ops.foldl (fun s op => s.store op.page op.words op.outlinks) s).url2pages u =
          some p → p.url = u by
    exact h ops {} (fun u p hp => by cases hp)
  intro ops
  induction ops with
  | nil => intro s hs; exact hs
  | cons op rest ih =>
    intro s hs
    exact ih _ (store_preserves_url2pages_key op.page op.words op.outlinks hs)

/-! ## Graph invariant claims -/

/-- Membership after a multimap point-insert. -/
lemma entryInsert_mem {α β : Type} [DecidableEq α] [DecidableEq β]
    (m : α → Option (Finset β)) (k : α) (v : β) (k' : α) (v' : β) :
    v' ∈ (entryInsert m k v k').getD ∅ ↔ (k' = k ∧ v' = v) ∨ v' ∈ (m k').getD ∅ := by
  unfold entryInsert
  by_cases h : k' = k
  · subst h
    simp [Finset.mem_insert]
  · simp [h]

/-- Membership after a multimap extension. -/
lemma entryExtend_mem {α β : Type} [DecidableEq α] [DecidableEq β]
    (m : α → Option (Finset β)) (k : α) (vs : Finset β) (k' : α) (v' : β) :
    v' ∈ (entryExtend m k vs k').getD ∅ ↔ (k' = k ∧ v' ∈ vs) ∨ v' ∈ (m k').getD ∅ := by
  unfold entryExtend
  by_cases h : k' = k
  · subst h
    simp [Finset.mem_union]
    tauto
  · simp [h]

/-- One step of the word loop of `store` preserves the forward/inverted
mutual-inverse invariant: the page URL and the lowercased word are inserted
into the two indices symmetrically. -/
lemma wordStep_preserves_wordInv (url : Url) (w : String) (s : IndexStore)
    (h : s.WordGraphInv) :
    (({ s with index := entryInsert s.index (lowercase w) url,
               invert_index := entryInsert s.invert_index url (lowercase w) } :
        IndexStore)).WordGraphInv := by
  intro w' u'
  have hs := h w' u'
  simp only [IndexStore.inForward, IndexStore.inInverted] at hs ⊢
  rw [entryInsert_mem, entryInsert_mem]
  tauto

/-- The whole word loop of `store` preserves the word-graph invariant. -/
lemma wordFold_preserves_wordInv (url : Url) :
    ∀ (wsl : List String) (s : IndexStore), s.WordGraphInv →
      (wsl.foldl (fun s word =>
        { s with index := entryInsert s.index (lowercase word) url,
                 invert_index := entryInsert s.invert_index url (lowercase word) })
        s).WordGraphInv := by
  intro wsl
  induction wsl with
  | nil => intro s h; exact h
  | cons w rest ih =>
    intro s h
    rw [List.foldl_cons]
    exact ih _ (wordStep_preserves_wordInv url w s h)

/-- Membership in `backlinks` after the backlink loop of `store`: a pair is
present afterwards exactly when it was inserted by the loop (outlink key,
page-URL value) or was present before. -/
lemma backFold_inBacklinks (url : Url) :
    ∀ (os : List Url) (s : IndexStore) (o u : Url),
      ((os.foldl (fun s outlink =>
          { s with backlinks := entryInsert s.backlinks outlink url }) s).inBacklinks o u) ↔
        ((o ∈ os ∧ u = url) ∨ s.inBacklinks o u) := by
  intro os
  induction os with
  | nil =>
    intro s o u
    simp
  | cons o1 rest ih =>
    intro s o u
    rw [List.foldl_cons, ih]
    simp only [IndexStore.inBacklinks, List.mem_cons]
    rw [entryInsert_mem]
    tauto

/-- C6 helper: `store` preserves the word-graph invariant. -/
lemma store_preserves_wordInv (s : IndexStore) (page : Page) (wsl : List String)
    (os : List Url) (h : s.WordGraphInv) : (s.store page wsl os).WordGraphInv := by
  have hidx : ∀ s' : IndexStore,
      ((os.foldl (fun s outlink =>
        { s with backlinks := entryInsert s.backlinks outlink page.url }) s').index) =
        s'.index :=
    fun s' => foldl_preserves
      (fun s outlink => { s with backlinks := entryInsert s.backlinks outlink page.url })
      (fun t : IndexStore => t.index) (fun s x => rfl) os s'
  have hinv : ∀ s' : IndexStore,
      ((os.foldl (fun s outlink =>
        { s with backlinks := entryInsert s.backlinks outlink page.url }) s').invert_index) =
        s'.invert_index :=
    fun s' => foldl_preserves
      (fun s outlink => { s with backlinks := entryInsert s.backlinks outlink page.url })
      (fun t : IndexStore => t.invert_index) (fun s x => rfl) os s'
  have hWF : ((wsl.foldl (fun s word =>
      { s with index := entryInsert s.index (lowercase word) page.url,
               invert_index := entryInsert s.invert_index page.url (lowercase word) })
      ({ s with indexed_pages := insert page s.indexed_pages,
                url2pages := mapInsert s.url2pages page.url page } :
        IndexStore))).WordGraphInv :=
    wordFold_preserves_wordInv page.url wsl _ h
  intro w u
  have e1 : (s.store page wsl os).index =
      ((wsl.foldl (fun s word =>
        { s with index := entryInsert s.index (lowercase word) page.url,
                 invert_index := entryInsert s.invert_index page.url (lowercase word) })
        ({ s with indexed_pages := insert page s.indexed_pages,
                  url2pages := mapInsert s.url2pages page.url page } :
          IndexStore))).index := by
    simp only [IndexStore.store]
    exact hidx _
  have e2 : (s.store page wsl os).invert_index =
      ((wsl.foldl (fun s word =>
        { s with index := entryInsert s.index (lowercase word) page.url,
                 invert_index := entryInsert s.invert_index page.url (lowercase word) })
        ({ s with indexed_pages := insert page s.indexed_pages,
                  url2pages := mapInsert s.url2pages page.url page } :
          IndexStore))).invert_index := by
    simp only [IndexStore.store]
    exact hinv _
  unfold IndexStore.inForward IndexStore.inInverted
  rw [e1, e2]
  exact hWF w u

/-- C6 helper: `store` preserves the link-graph invariant. -/
lemma store_preserves_linkInv (s : IndexStore) (page : Page) (wsl : List String)
    (os : List Url) (h : s.LinkGraphInv) : (s.store page wsl os).LinkGraphInv := by
  have houtsW : ∀ s' : IndexStore,
      ((wsl.foldl (fun s word =>
        { s with index := entryInsert s.index (lowercase word) page.url,
                 invert_index := entryInsert s.invert_index page.url (lowercase word) })
        s').outlinks) = s'.outlinks :=
    fun s' => foldl_preserves
      (fun s word =>
        { s with index := entryInsert s.index (lowercase word) page.url,
                 invert_index := entryInsert s.invert_index page.url (lowercase word) })
      (fun t : IndexStore => t.outlinks) (fun s x => rfl) wsl s'
  have hbacksW : ∀ s' : IndexStore,
      ((wsl.foldl (fun s word =>
        { s with index := entryInsert s.index (lowercase word) page.url,
                 invert_index := entryInsert s.invert_index page.url (lowercase word) })
        s').backlinks) = s'.backlinks :=
    fun s' => foldl_preserves
      (fun s word =>
        { s with index := entryInsert s.index (lowercase word) page.url,
                 invert_index := entryInsert s.invert_index page.url (lowercase word) })
      (fun t : IndexStore => t.backlinks) (fun s x => rfl) wsl s'
  have houtsB : ∀ s' : IndexStore,
      ((os.foldl (fun s outlink =>
        { s with backlinks := entryInsert s.backlinks outlink page.url }) s').outlinks) =
        s'.outlinks :=
    fun s' => foldl_preserves
      (fun s outlink => { s with backlinks := entryInsert s.backlinks outlink page.url })
      (fun t : IndexStore => t.outlinks) (fun s x => rfl) os s'
  have hout : ∀ u o : Url, (s.store page wsl os).inOutlinks u o ↔
      ((u = page.url ∧ o ∈ os) ∨ s.inOutlinks u o) := by
    intro u o
    unfold IndexStore.inOutlinks
    simp only [IndexStore.store]
    rw [houtsB _]
    have e : ∀ s' : IndexStore, (({ s' with
        outlinks := entryExtend s'.outlinks page.url os.toFinset } :
          IndexStore)).outlinks = entryExtend s'.outlinks page.url os.toFinset :=
      fun s' => rfl
    rw [e _, houtsW _]
    rw [entryExtend_mem]
    simp [List.mem_toFinset]
  have hback : ∀ o u : Url, (s.store page wsl os).inBacklinks o u ↔
      ((o ∈ os ∧ u = page.url) ∨ s.inBacklinks o u) := by
    intro o u
    simp only [IndexStore.store]
    rw [backFold_inBacklinks page.url os _ o u]
    have e : ∀ s' : IndexStore, (({ s' with
        outlinks := entryExtend s'.outlinks page.url os.toFinset } :
          IndexStore)).inBacklinks o u ↔ s'.inBacklinks o u := fun s' => Iff.rfl
    rw [e _]
    unfold IndexStore.inBacklinks
    rw [hbacksW _]
  intro u o
  rw [hout u o, hback o u]
  have hs := h u o
  tauto

/-- The empty (default) store satisfies the word-graph invariant. -/
lemma emptyStore_wordInv : (({} : IndexStore)).WordGraphInv := by
  intro w u
  simp [IndexStore.inForward, IndexStore.inInverted]

/-- The empty (default) store satisfies the link-graph invariant. -/
lemma emptyStore_linkInv : (({} : IndexStore)).LinkGraphInv := by
  intro u o
  simp [IndexStore.inOutlinks, IndexStore.inBacklinks]

/-- C6: every `store` call preserves both graph invariants — the
forward/inverted word indices are mutual inverses and the outlink/backlink
adjacency maps are mutual inverses — and therefore every store reachable
from the empty store by any sequence of `store` calls satisfies both. -/
theorem store_preserves_graph_invariants :
    (∀ (s : IndexStore) (page : Page) (wsl : List String) (os : List Url),
      s.WordGraphInv → (s.store page wsl os).WordGraphInv) ∧
    (∀ (s : IndexStore) (page : Page) (wsl : List String) (os : List Url),
      s.LinkGraphInv → (s.store page wsl os).LinkGraphInv) ∧
    (∀ ops : List StoreOp,
      (IndexStore.runStores ops).WordGraphInv ∧
      (IndexStore.runStores ops).LinkGraphInv) := by
  have hrun : ∀ (ops : List StoreOp) (s : IndexStore),
      s.WordGraphInv → s.LinkGraphInv →
      ((ops.foldl (fun s op => s.store op.page op.words op.outlinks) s).WordGraphInv ∧
       (ops.foldl (fun s op => s.store op.page op.words op.outlinks) s).LinkGraphInv) := by
    intro ops
    induction ops with
    | nil => intro s h1 h2; exact ⟨h1, h2⟩
    | cons op rest ih =>
      intro s h1 h2
      exact ih _ (store_preserves_wordInv s op.page op.words op.outlinks h1)
        (store_preserves_linkInv s op.page op.words op.outlinks h2)
  exact ⟨store_preserves_wordInv, store_preserves_linkInv,
    fun ops => hrun ops {} emptyStore_wordInv emptyStore_linkInv⟩

/-- C6 witness: the theorem applied at the empty store and one concrete
`store` call, with the invariant hypotheses discharged by the empty-store
lemmas. -/
theorem store_preserves_graph_invariants_witness :
    ((({} : IndexStore)).WordGraphInv ∧ (({} : IndexStore)).LinkGraphInv) ∧
    ((({} : IndexStore).store cexPage ["Rust"] [cexU2]).WordGraphInv ∧
     (({} : IndexStore).store cexPage ["Rust"] [cexU2]).LinkGraphInv) :=
  ⟨⟨emptyStore_wordInv, emptyStore_linkInv⟩,
   store_preserves_graph_invariants.1 {} cexPage ["Rust"] [cexU2] emptyStore_wordInv,
   store_preserves_graph_invariants.2.1 {} cexPage ["Rust"] [cexU2] emptyStore_linkInv⟩

/-! ## Search claims -/

/-- Membership in the page set produced from a URL set through `url2pages`. -/
lemma IndexStore.mem_pagesOf {s : IndexStore} {urls : Finset Url} {p : Page} :
    p ∈ s.pagesOf urls ↔ ∃ u ∈ urls, s.url2pages u = some p := by
  unfold IndexStore.pagesOf
  simp only [Finset.mem_biUnion, Option.mem_toFinset, Option.mem_def]

/-- Membership in a left fold of finite-set intersections. -/
lemma mem_foldl_inter (u : Url) :
    ∀ (l : List (Finset Url)) (acc : Finset Url),
      u ∈ l.foldl (· ∩ ·) acc ↔ u ∈ acc ∧ ∀ t ∈ l, u ∈ t := by
  intro l
  induction l with
  | nil => intro acc; simp
  | cons t l ih =>
    intro acc
    rw [List.foldl_cons, ih]
    simp only [Finset.mem_inter, List.mem_cons]
    constructor
    · rintro ⟨⟨h1, h2⟩, h3⟩
      exact ⟨h1, fun t' ht' => ht'.elim (fun he => he ▸ h2) (h3 t')⟩
    · rintro ⟨h1, h2⟩
      exact ⟨⟨h1, h2 t (Or.inl rfl)⟩, fun t' ht' => h2 t' (Or.inr ht')⟩

/-- Membership in the intersection of the posting lists of a non-empty word
list. -/
lemma mem_interAll_map {α : Type} (f : α → Finset Url) (l : List α) (hl : l ≠ [])
    (u : Url) : u ∈ interAll (l.map f) ↔ ∀ x ∈ l, u ∈ f x := by
  cases l with
  | nil => cases hl rfl
  | cons x l =>
    unfold interAll
    rw [List.map_cons, mem_foldl_inter]
    constructor
    · rintro ⟨h1, h2⟩ y hy
      rcases List.mem_cons.mp hy with rfl | hy'
      · exact h1
      · exact h2 (f y) (List.mem_map_of_mem f hy')
    · intro h
      refine ⟨h x (List.mem_cons_self x l), ?_⟩
      intro t ht
      obtain ⟨y, hy, rfl⟩ := List.mem_map.mp ht
      exact h y (List.mem_cons_of_mem x hy)

/-- When the partial function succeeds on every element, `filterMap` is the
`map` of its (defaulted) values. -/
lemma filterMap_eq_map_getD {α β : Type} (f : α → Option β) (d : β) :
    ∀ l : List α, (∀ x ∈ l, (f x).isSome) →
      l.filterMap f = l.map (fun x => (f x).getD d) := by
  intro l
  induction l with
  | nil => intro _; rfl
  | cons x l ih =>
    intro h
    obtain ⟨v, hv⟩ := Option.isSome_iff_exists.mp (h x (List.mem_cons_self x l))
    rw [List.filterMap_cons, hv, List.map_cons,
      ih (fun y hy => h y (List.mem_cons_of_mem x hy))]
    simp [hv]

/-- When the partial function fails on some element, `filterMap` strictly
shortens the list. -/
lemma length_filterMap_lt {α β : Type} (f : α → Option β) :
    ∀ (l : List α) (x : α), x ∈ l → f x = none →
      (l.filterMap f).length < l.length := by
  intro l
  induction l with
  | nil => intro x hx; cases hx
  | cons a l ih =>
    intro x hx hnone
    rw [List.filterMap_cons]
    rcases List.mem_cons.mp hx with rfl | hx'
    · rw [hnone]
      exact Nat.lt_succ_of_le (List.length_filterMap_le f l)
    · cases f a with
      | none =>
        exact Nat.lt_succ_of_lt (ih x hx' hnone)
      | some v =>
        rw [List.length_cons]
        exact Nat.succ_lt_succ (ih x hx' hnone)

/-- C2 counterexample: a store (constructible through `IndexStore::load`)
whose `urlToPage` maps two distinct URLs to the same page.  Both words `a`
and `b` are present in the forward index, yet `Search([a,b])` is empty while
`Search([a]) ∩ Search([b])` is not — the pairwise-intersection identity of
the claim fails on such a store. -/
theorem search_intersection_counterexample :
    (cexStore.index (lowercase "a")).isSome = true ∧
    (cexStore.index (lowercase "b")).isSome = true ∧
    cexStore.search ["a", "b"] = ∅ ∧
    cexStore.search ["a"] ∩ cexStore.search ["b"] = {cexPage} := by
  decide

/-- C2 (amended): for every store, `search` of an empty word list is empty;
`search` is empty when some word has no posting list; otherwise a page is
found exactly when some URL lying in every posting list maps to it through
`urlToPage` (the intersection of the posting lists mapped through
`urlToPage`).  The pairwise identity
`Search([a,b]) = Search([a]) ∩ Search([b])` (both words present) holds under
the additional hypothesis that `urlToPage` maps every URL to a page carrying
that URL — true of every store built by `store`, but not of every loadable
store.  Finally, `search` is case-insensitive: word lists with equal
lowercasings search equally. -/
theorem search_characterization (s : IndexStore) (ws : List String) (a b : String) :
    (ws = [] → s.search ws = ∅) ∧
    ((∃ w ∈ ws, s.index (lowercase w) = none) → s.search ws = ∅) ∧
    (ws ≠ [] → (∀ w ∈ ws, (s.index (lowercase w)).isSome) → ∀ p : Page,
      (p ∈ s.search ws ↔ ∃ u : Url,
        (∀ w ∈ ws, u ∈ (s.index (lowercase w)).getD ∅) ∧ s.url2pages u = some p)) ∧
    ((∀ (u : Url) (p : Page), s.url2pages u = some p → p.url = u) →
      (s.index (lowercase a)).isSome → (s.index (lowercase b)).isSome →
      s.search [a, b] = s.search [a] ∩ s.search [b]) ∧
    (∀ ws' : List String, ws.map lowercase = ws'.map lowercase →
      s.search ws = s.search ws') := by
  have hchar : ∀ vs : List String, vs ≠ [] →
      (∀ w ∈ vs, (s.index (lowercase w)).isSome) → ∀ p : Page,
      (p ∈ s.search vs ↔ ∃ u : Url,
        (∀ w ∈ vs, u ∈ (s.index (lowercase w)).getD ∅) ∧ s.url2pages u = some p) := by
    intro vs hne hall p
    have hmapeq : (vs.map lowercase).filterMap s.index =
        vs.map (fun w => (s.index (lowercase w)).getD ∅) := by
      rw [filterMap_eq_map_getD s.index ∅ (vs.map lowercase) (by
        intro x hx
        obtain ⟨w, hw, rfl⟩ := List.mem_map.mp hx
        exact hall w hw), List.map_map]
      rfl
    have hlen : ((vs.map lowercase).filterMap s.index).length = vs.length := by
      rw [hmapeq, List.length_map]
    simp only [IndexStore.search]
    rw [if_neg (by simpa [List.isEmpty_iff] using hne), hmapeq,
      if_neg (by rw [← hmapeq, hlen]; exact Nat.lt_irrefl _),
      IndexStore.mem_pagesOf]
    constructor
    · rintro ⟨u, hu, hup⟩
      exact ⟨u, (mem_interAll_map _ vs hne u).mp hu, hup⟩
    · rintro ⟨u, hu, hup⟩
      exact ⟨u, (mem_interAll_map _ vs hne u).mpr hu, hup⟩
  refine ⟨?_, ?_, hchar ws, ?_, ?_⟩
  · intro h
    subst h
    rfl
  · rintro ⟨w, hw, hnone⟩
    have hne : ws ≠ [] := by
      intro h
      subst h
      cases hw
    have hlt : ((ws.map lowercase).filterMap s.index).length < ws.length := by
      have := length_filterMap_lt s.index (ws.map lowercase) (lowercase w)
        (List.mem_map_of_mem lowercase hw) hnone
      rwa [List.length_map] at this
    simp only [IndexStore.search]
    rw [if_neg (by simpa [List.isEmpty_iff] using hne), if_pos hlt]
  · intro hcons ha hb
    have hab : ∀ w ∈ [a, b], (s.index (lowercase w)).isSome := by
      intro w hw
      rcases List.mem_cons.mp hw with rfl | hw'
      · exact ha
      · rcases List.mem_cons.mp hw' with rfl | hw''
        · exact hb
        · cases hw''
    ext p
    rw [hchar [a, b] (by simp) hab p, Finset.mem_inter,
      hchar [a] (by simp) (by intro w hw; rcases List.mem_singleton.mp hw with rfl; exact ha) p,
      hchar [b] (by simp) (by intro w hw; rcases List.mem_singleton.mp hw with rfl; exact hb) p]
    constructor
    · rintro ⟨u, hu, hup⟩
      refine ⟨⟨u, ?_, hup⟩, ⟨u, ?_, hup⟩⟩
      · intro w hw
        rcases List.mem_singleton.mp hw with rfl
        exact hu w (List.mem_cons_self w [b])
      · intro w hw
        rcases List.mem_singleton.mp hw with rfl
        exact hu w (List.mem_cons_of_mem a (List.mem_singleton_self w))
    · rintro ⟨⟨u1, hu1, hu1p⟩, ⟨u2, hu2, hu2p⟩⟩
      have he1 : p.url = u1 := hcons u1 p hu1p
      have he2 : p.url = u2 := hcons u2 p hu2p
      refine ⟨u1, ?_, hu1p⟩
      intro w hw
      rcases List.mem_cons.mp hw with rfl | hw'
      · exact hu1 w (List.mem_singleton_self w)
      · rcases List.mem_singleton.mp hw' with rfl
        rw [← he1, he2]
        exact hu2 w (List.mem_singleton_self w)
  · intro ws' hmap
    have hsets : (ws.map lowercase).filterMap s.index =
        (ws'.map lowercase).filterMap s.index := by rw [hmap]
    have hlen : ws.length = ws'.length := by
      have h1 := congrArg List.length hmap
      rwa [List.length_map, List.length_map] at h1
    cases ws with
    | nil =>
      cases ws' with
      | nil => rfl
      | cons x xs => cases hlen
    | cons w wsr =>
      cases ws' with
      | nil => cases hlen
      | cons x xs =>
        simp only [IndexStore.search, List.isEmpty_cons, hsets, hlen]

/-- C2 witness: the amended theorem applied to the two-page store built by
`store` calls; its `urlToPage` is key-consistent (established through the
store-preservation lemma), both query words are present, and the pairwise
intersection identity and case-insensitivity follow. -/
theorem search_characterization_witness :
    ((relStore.index (lowercase "rust")).isSome = true ∧
     (relStore.index (lowercase "web")).isSome = true ∧
     (["RUST"].map lowercase = ["rust"].map lowercase)) ∧
    relStore.search ["rust", "web"] = relStore.search ["rust"] ∩ relStore.search ["web"] ∧
    relStore.search ["RUST"] = relStore.search ["rust"] :=
  ⟨⟨by decide, by decide, by decide⟩,
   (search_characterization relStore ["rust"] "rust" "web").2.2.2.1
     (runStores_url2pages_key _) (by decide) (by decide),
   (search_characterization relStore ["RUST"] "rust" "web").2.2.2.2 ["rust"] (by decide)⟩

/-! ## Search-by-relevance claim -/

/-- C5: for every store and every duplicate-free enumeration of the pages of
`search words`, `search_by_relevance` returns exactly those pages (a
permutation of the enumeration, hence the same membership as `search`),
ordered descending by the actual cardinality of the stored backlink set
(`backlinkCount`, which is `|backlinks[page.url]|` and `0` when the URL has
no entry — not a 0-or-1 presence indicator). -/
theorem search_by_relevance_spec (s : IndexStore) (ws : List String)
    (pages : List Page) (hnd : pages.Nodup)
    (henum : pages.toFinset = s.search ws) :
    (s.search_by_relevance pages).Perm pages ∧
    (∀ p, p ∈ s.search_by_relevance pages ↔ p ∈ s.search ws) ∧
    (s.search_by_relevance pages).Sorted
      (fun p q => s.backlinkCount q.url ≤ s.backlinkCount p.url) := by
  have hperm : (s.search_by_relevance pages).Perm pages := by
    unfold IndexStore.search_by_relevance
    have h1 := List.mergeSort_perm
      (pages.map fun page => (page, s.backlinkCount page.url))
      (fun a b => decide (b.2 ≤ a.2))
    have h2 := h1.map Prod.fst
    have h3 : List.map Prod.fst
        (pages.map fun page => (page, s.backlinkCount page.url)) = pages := by
      rw [List.map_map]
      have hcomp : (Prod.fst ∘ fun page : Page =>
          (page, s.backlinkCount page.url)) = id := rfl
      rw [hcomp, List.map_id]
    rw [h3] at h2
    exact h2
  refine ⟨hperm, ?_, ?_⟩
  · intro p
    rw [hperm.mem_iff, ← List.mem_toFinset, henum]
  · unfold IndexStore.search_by_relevance
    have htrans : ∀ a b c : Page × Nat, decide (b.2 ≤ a.2) = true →
        decide (c.2 ≤ b.2) = true → decide (c.2 ≤ a.2) = true := by
      intro a b c hab hbc
      simp only [decide_eq_true_eq] at *
      omega
    have htotal : ∀ a b : Page × Nat,
        (decide (b.2 ≤ a.2) || decide (a.2 ≤ b.2)) = true := by
      intro a b
      simp only [Bool.or_eq_true, decide_eq_true_eq]
      omega
    have hpw := List.sorted_mergeSort htrans htotal
      (pages.map fun page => (page, s.backlinkCount page.url))
    rw [List.Sorted, List.pairwise_map]
    have hmem : ∀ x ∈ (pages.map fun page => (page, s.backlinkCount page.url)).mergeSort
        (fun a b => decide (b.2 ≤ a.2)), x.2 = s.backlinkCount x.1.url := by
      intro x hx
      have hx' := (List.mergeSort_perm
        (pages.map fun page => (page, s.backlinkCount page.url))
        (fun a b => decide (b.2 ≤ a.2))).mem_iff.mp hx
      obtain ⟨page, hpage, rfl⟩ := List.mem_map.mp hx'
      rfl
    refine List.Pairwise.imp_of_mem ?_ hpw
    intro a b ha hb hab
    have ha2 := hmem a ha
    have hb2 := hmem b hb
    simp only [decide_eq_true_eq] at hab
    rw [← ha2, ← hb2]
    exact hab

/-- C5 witness: the theorem applied to a two-page store built by `store`
calls, over the enumeration listing the less-popular page first; both
hypotheses are discharged by evaluation. -/
theorem search_by_relevance_spec_witness :
    (([relPageY, cexPage] : List Page).Nodup ∧
      ([relPageY, cexPage] : List Page).toFinset = relStore.search ["rust"]) ∧
    ((relStore.search_by_relevance [relPageY, cexPage]).Perm [relPageY, cexPage] ∧
     (∀ p, p ∈ relStore.search_by_relevance [relPageY, cexPage] ↔
        p ∈ relStore.search ["rust"]) ∧
     (relStore.search_by_relevance [relPageY, cexPage]).Sorted
       (fun p q => relStore.backlinkCount q.url ≤ relStore.backlinkCount p.url)) :=
  ⟨⟨by decide, by decide⟩,
   search_by_relevance_spec relStore ["rust"] [relPageY, cexPage] (by decide) (by decide)⟩

/-- Mapping with an index function that ignores its inputs pointwise is the
identity. -/
lemma mapIdx_id_of {α : Type} (f : Nat → α → α) :
    ∀ l : List α, (∀ j b, f j b = b) → l.mapIdx f = l := by
  intro l
  induction l generalizing f with
  | nil => intro _; rfl
  | cons a l ih =>
    intro h
    rw [List.mapIdx_cons, h 0 a, ih (fun i => f (i + 1)) (fun j b => h (j + 1) b)]

/-- Rust `send_until` loop, no-success case: when every remaining attempt fails,
the loop returns `Offline total` and marks exactly the connect-failed Barrels
offline, leaving call-failed Barrels untouched. -/
lemma sendUntilGo_offline {T : Type} :
    ∀ (bs : List LoadBalancer.Barrel) (oc : Nat → CallOutcome T) (off : Nat)
      (avg : ResponseTime) (total : Nat),
      (∀ j, j < bs.length → (oc j).isOk = false) →
      sendUntilGo total bs oc off avg =
        (LBResult.Offline total,
         bs.mapIdx (fun j b =>
           if (oc j).isConnectFail then { b with online := false } else b)) := by
  intro bs
  induction bs with
  | nil => intro oc off avg total _; rfl
  | cons b rest ih =>
    intro oc off avg total h
    have h0 := h 0 (Nat.succ_pos _)
    have hrest : ∀ j, j < rest.length → ((fun k => oc (k + 1)) j).isOk = false :=
      fun j hj => h (j + 1) (Nat.succ_lt_succ hj)
    cases hoc : oc 0 with
    | callOk r ms => rw [hoc] at h0; simp [CallOutcome.isOk] at h0
    | connectFail =>
      simp only [sendUntilGo, hoc, ih (fun k => oc (k + 1)) (off + 1) avg total hrest,
        List.mapIdx_cons, CallOutcome.isConnectFail, if_true]
    | callFail =>
      simp only [sendUntilGo, hoc, ih (fun k => oc (k + 1)) off avg total hrest,
        List.mapIdx_cons, CallOutcome.isConnectFail, Bool.false_eq_true, if_false]

/-- Rust `send_until` loop, first-success case: when the first successful attempt
is at position `i`, the loop returns that response, the accumulated offline
count plus the number of connect failures before `i`, and one latency sample;
the Barrel records are adjusted by `markBarrel`. -/
lemma sendUntilGo_ok {T : Type} :
    ∀ (bs : List LoadBalancer.Barrel) (oc : Nat → CallOutcome T) (i : Nat)
      (r : T) (ms : ℚ) (off : Nat) (avg : ResponseTime) (total : Nat),
      i < bs.length → oc i = CallOutcome.callOk r ms →
      (∀ j, j < i → (oc j).isOk = false) →
      sendUntilGo total bs oc off avg =
        (LBResult.Ok r (off + connectFailsBefore oc i) (avg.new_sample ms),
         bs.mapIdx (fun j b => markBarrel oc i j b)) := by
  intro bs
  induction bs with
  | nil => intro oc i r ms off avg total hi; cases hi
  | cons b rest ih =>
    intro oc i r ms off avg total hi hok hmin
    cases i with
    | zero =>
      have htail : List.mapIdx (fun i b => markBarrel oc 0 (i + 1) b) rest = rest :=
        mapIdx_id_of _ rest (fun j b => by simp [markBarrel])
      have hhead : markBarrel oc 0 0 b = { b with online := true } := by
        simp [markBarrel]
      have hcfb : connectFailsBefore oc 0 = 0 := rfl
      simp only [sendUntilGo, hok, List.mapIdx_cons, htail, hhead, hcfb, Nat.add_zero]
    | succ i' =>
      have h0 := hmin 0 (Nat.succ_pos _)
      have hi' : i' < rest.length := Nat.lt_of_succ_lt_succ hi
      have hok' : (fun k => oc (k + 1)) i' = CallOutcome.callOk r ms := hok
      have hmin' : ∀ j, j < i' → ((fun k => oc (k + 1)) j).isOk = false :=
        fun j hj => hmin (j + 1) (Nat.succ_lt_succ hj)
      have hfun : (fun j b => markBarrel oc (i' + 1) (j + 1) b) =
          fun j b => markBarrel (fun k => oc (k + 1)) i' j b := by
        funext j b
        simp [markBarrel, Nat.add_lt_add_iff_right, Nat.add_right_cancel_iff]
      have hcount : connectFailsBefore oc (i' + 1) =
          connectFailsBefore (fun k => oc (k + 1)) i' +
            (if (oc 0).isConnectFail = true then 1 else 0) := by
        simp only [connectFailsBefore, List.range_succ_eq_map, List.countP_cons,
          List.countP_map]
        rfl
      cases hoc : oc 0 with
      | callOk r' ms' => rw [hoc] at h0; simp [CallOutcome.isOk] at h0
      | connectFail =>
        have hhead : markBarrel oc (i' + 1) 0 b = { b with online := false } := by
          simp [markBarrel, hoc, CallOutcome.isConnectFail]
        have harith : off + 1 + connectFailsBefore (fun k => oc (k + 1)) i' =
            off + connectFailsBefore oc (i' + 1) := by
          rw [hcount, hoc]
          simp only [CallOutcome.isConnectFail, if_true]
          omega
        simp only [sendUntilGo, hoc,
          ih (fun k => oc (k + 1)) i' r ms (off + 1) avg total hi' hok' hmin',
          List.mapIdx_cons, hhead, harith, hfun]
      | callFail =>
        have hhead : markBarrel oc (i' + 1) 0 b = b := by
          simp [markBarrel, hoc, CallOutcome.isConnectFail]
        have harith : off + connectFailsBefore (fun k => oc (k + 1)) i' =
            off + connectFailsBefore oc (i' + 1) := by
          rw [hcount, hoc]
          simp [CallOutcome.isConnectFail]
        simp only [sendUntilGo, hoc,
          ih (fun k => oc (k + 1)) i' r ms off avg total hi' hok' hmin',
          List.mapIdx_cons, hhead, harith, hfun]

/-- C3 counterexample: two Barrels; the first (currently online) accepts the
connection but fails the RPC call, the second succeeds.  `send_until`
returns the second Barrel's response with an offline count of 0, and the
first Barrel is still marked online afterwards — the claim instead requires
the first Barrel to be marked offline and counted among the failures. -/
theorem send_until_counterexample :
    (LoadBalancer.send_until [lbB0, lbB1] c3oc).1 =
      LBResult.Ok 7 0 (ResponseTime.default.new_sample 5) ∧
    (LoadBalancer.send_until [lbB0, lbB1] c3oc).2.map LoadBalancer.Barrel.online =
      [true, true] ∧
    lbB0.online = true := by
  refine ⟨rfl, by decide, rfl⟩

/-- C3 (amended): `send_until` iterates the Barrels in order and returns
`Ok` with the response of the first Barrel whose connect and call both
succeed, together with the count of Barrels that failed **at connect**
before it; every Barrel that failed at connect before the first success is
marked offline, while a Barrel whose connect succeeded but whose call failed
keeps its previous online flag and is not counted; if no Barrel succeeds the
result is `Offline` with the total number of Barrels. -/
theorem send_until_characterization {T : Type} (barrels : List LoadBalancer.Barrel)
    (oc : Nat → CallOutcome T) :
    (∀ (i : Nat) (r : T) (ms : ℚ), i < barrels.length →
      oc i = CallOutcome.callOk r ms → (∀ j, j < i → (oc j).isOk = false) →
      LoadBalancer.send_until barrels oc =
        (LBResult.Ok r (connectFailsBefore oc i) (ResponseTime.default.new_sample ms),
         barrels.mapIdx (fun j b => markBarrel oc i j b))) ∧
    ((∀ j, j < barrels.length → (oc j).isOk = false) →
      LoadBalancer.send_until barrels oc =
        (LBResult.Offline barrels.length,
         barrels.mapIdx (fun j b =>
           if (oc j).isConnectFail then { b with online := false } else b))) := by
  constructor
  · intro i r ms hi hok hmin
    unfold LoadBalancer.send_until
    rw [sendUntilGo_ok barrels oc i r ms 0 ResponseTime.default barrels.length hi hok hmin]
    rw [Nat.zero_add]
  · intro h
    unfold LoadBalancer.send_until
    exact sendUntilGo_offline barrels oc 0 ResponseTime.default barrels.length h

/-- C3 witness: the amended characterization applied to the concrete
two-Barrel scenario of the counterexample, with all hypotheses discharged
concretely (first success at position 1, position 0 not successful). -/
theorem send_until_characterization_witness :
    (1 < ([lbB0, lbB1] : List LoadBalancer.Barrel).length ∧
      c3oc 1 = CallOutcome.callOk 7 5) ∧
    LoadBalancer.send_until [lbB0, lbB1] c3oc =
      (LBResult.Ok 7 (connectFailsBefore c3oc 1) (ResponseTime.default.new_sample 5),
       ([lbB0, lbB1] : List LoadBalancer.Barrel).mapIdx
         (fun j b => markBarrel c3oc 1 j b)) :=
  ⟨⟨by decide, rfl⟩,
   (send_until_characterization [lbB0, lbB1] c3oc).1 1 7 5 (by decide) rfl
     (fun j hj => by
       have hj0 : j = 0 := by omega
       subst hj0
       rfl)⟩

/-- C10 witness: a concrete request with one good and one malformed outlink;
the Gateway admission loop panics on it, while the Barrel conversion keeps
only the good outlink. -/
theorem gateway_index_panics_on_malformed_outlink_witness :
    ("not a url" ∈ ["https://x/", "not a url"] ∧ exampleParse "not a url" = none) ∧
    Gateway.index_enqueue_outlinks exampleParse ["https://x/", "not a url"] {} = none ∧
    Barrel.parse_outlinks exampleParse ["https://x/", "not a url"] =
      [⟨"https://x/", some "x"⟩] :=
  ⟨⟨by decide, by decide⟩,
   (gateway_index_panics_on_malformed_outlink exampleParse ["https://x/", "not a url"]
      "not a url" {} (by decide) (by decide)).1,
   by decide⟩

end Googol
